import Mathlib

/-!
Verification of the multitask evolutionary optimizer (mfeaii_mgp driver and
its NaN-safe primitive function set) against its specification.

The numeric primitives of src/slgep_lib/function_set.py are embedded over an
explicit value domain `FVal` (finite rational payload or the floating NaN
sentinel).  The transcendental payloads of the numpy ufuncs and their raising
behaviour under np.seterr(all=raise) are abstracted as parameters; every
theorem holds for each instantiation.
-/

namespace FunctionSet

/-- Value domain of the primitive evaluators: either the floating NaN
sentinel or a finite number, whose payload is modelled exactly as a
rational. -/
inductive FVal where
  | nan : FVal
  | num : ℚ → FVal
deriving DecidableEq, Repr

/-- Abstract finite-payload semantics of the numpy ufuncs under
np.seterr(all=raise): on finite (non-NaN) inputs each ufunc either returns a
finite value or raises a FloatingPointError, which is modelled with Except.
The payload maps and the raising behaviour (overflow, invalid operation) are
left abstract. -/
structure NpOps where
  addFin : ℚ → ℚ → Except Unit ℚ
  subFin : ℚ → ℚ → Except Unit ℚ
  mulFin : ℚ → ℚ → Except Unit ℚ
  divFin : ℚ → ℚ → Except Unit ℚ
  sinFin : ℚ → Except Unit ℚ
  cosFin : ℚ → Except Unit ℚ
  expFin : ℚ → Except Unit ℚ
  logFin : ℚ → Except Unit ℚ

/-- Quiet-NaN lifting of a binary ufunc: a NaN operand propagates to a NaN
result without raising (numpy raises only when an invalid result is produced
from finite operands). -/
def npLift2 (f : ℚ → ℚ → Except Unit ℚ) : FVal → FVal → Except Unit FVal
  | FVal.nan, _ => .ok .nan
  | _, FVal.nan => .ok .nan
  | FVal.num a, FVal.num b => (f a b).map FVal.num

/-- Quiet-NaN lifting of a unary ufunc. -/
def npLift1 (f : ℚ → Except Unit ℚ) : FVal → Except Unit FVal
  | FVal.nan => .ok .nan
  | FVal.num a => (f a).map FVal.num

/-- Python comparison `v == 0` on a float: False when v is NaN. -/
def pyEqZero : FVal → Bool
  | FVal.nan => false
  | FVal.num x => x = 0

/-- Python comparison `v >= 88` on a float: False when v is NaN. -/
def pyGe88 : FVal → Bool
  | FVal.nan => false
  | FVal.num x => 88 ≤ x

/-- Embedding of function_set.add: np.add wrapped in try/except, the except
arm returning np.nan. -/
def add (ops : NpOps) (a b : FVal) : FVal :=
  match npLift2 ops.addFin a b with
  | .ok c => c
  | .error _ => FVal.nan

/-- Embedding of function_set.subtract. -/
def subtract (ops : NpOps) (a b : FVal) : FVal :=
  match npLift2 ops.subFin a b with
  | .ok c => c
  | .error _ => FVal.nan

/-- Embedding of function_set.multiply. -/
def multiply (ops : NpOps) (a b : FVal) : FVal :=
  match npLift2 ops.mulFin a b with
  | .ok c => c
  | .error _ => FVal.nan

/-- Embedding of function_set.divide: the `b == 0` guard returns np.nan
before np.divide is attempted. -/
def divide (ops : NpOps) (a b : FVal) : FVal :=
  if pyEqZero b then FVal.nan
  else
    match npLift2 ops.divFin a b with
    | .ok c => c
    | .error _ => FVal.nan

/-- Embedding of function_set.log: the `a == 0` guard returns np.nan before
np.log is attempted. -/
def log (ops : NpOps) (a : FVal) : FVal :=
  if pyEqZero a then FVal.nan
  else
    match npLift1 ops.logFin a with
    | .ok b => b
    | .error _ => FVal.nan

/-- Embedding of function_set.take_sin. -/
def take_sin (ops : NpOps) (a : FVal) : FVal :=
  match npLift1 ops.sinFin a with
  | .ok b => b
  | .error _ => FVal.nan

/-- Embedding of function_set.take_cos. -/
def take_cos (ops : NpOps) (a : FVal) : FVal :=
  match npLift1 ops.cosFin a with
  | .ok b => b
  | .error _ => FVal.nan

/-- Embedding of function_set.exp: the `a >= 88` overflow guard returns
np.nan before np.exp is attempted. -/
def exp (ops : NpOps) (a : FVal) : FVal :=
  if pyGe88 a then FVal.nan
  else
    match npLift1 ops.expFin a with
    | .ok b => b
    | .error _ => FVal.nan

/-- Embedding of np.abs on the value domain (NaN propagates). -/
def npAbs : FVal → FVal
  | FVal.nan => FVal.nan
  | FVal.num x => FVal.num |x|

/-- One entry of FUNCTION_SET: symbol name, arity, and the evaluation rule
applied to an argument list of that arity. -/
structure FuncEntry where
  name : String
  arity : ℕ
  func : List FVal → Option FVal

instance : Inhabited FuncEntry := ⟨⟨"", 0, fun _ => none⟩⟩

/-- Embedding of the FUNCTION_SET table of src/slgep_lib/function_set.py:
eight primitives with their arities; `ln|x|` composes log with np.abs as in
the source lambda. -/
def FUNCTION_SET (ops : NpOps) : List FuncEntry :=
  [ ⟨"+", 2, fun args => match args with | [a, b] => some (add ops a b) | _ => none⟩,
    ⟨"-", 2, fun args => match args with | [a, b] => some (subtract ops a b) | _ => none⟩,
    ⟨"*", 2, fun args => match args with | [a, b] => some (multiply ops a b) | _ => none⟩,
    ⟨"/", 2, fun args => match args with | [a, b] => some (divide ops a b) | _ => none⟩,
    ⟨"sin", 1, fun args => match args with | [a] => some (take_sin ops a) | _ => none⟩,
    ⟨"cos", 1, fun args => match args with | [a] => some (take_cos ops a) | _ => none⟩,
    ⟨"e^x", 1, fun args => match args with | [a] => some (exp ops a) | _ => none⟩,
    ⟨"ln|x|", 1, fun args => match args with | [a] => some (log ops (npAbs a)) | _ => none⟩ ]

/-- Concrete exact-rational instantiation of the ufunc payloads, used only to
exercise the theorems on closed inputs (transcendental payloads are stubbed;
the theorems hold for every instantiation). -/
def qOps : NpOps :=
  ⟨fun a b => .ok (a + b), fun a b => .ok (a - b), fun a b => .ok (a * b),
   fun a b => .ok (a / b), fun _ => .ok 0, fun _ => .ok 0, fun _ => .ok 0,
   fun _ => .ok 0⟩

/-- Instantiation in which every ufunc raises, exercising the try/except
arms. -/
def errOps : NpOps :=
  ⟨fun _ _ => .error (), fun _ _ => .error (), fun _ _ => .error (),
   fun _ _ => .error (), fun _ => .error (), fun _ => .error (),
   fun _ => .error (), fun _ => .error ()⟩

theorem npLift2_nan_left (f : ℚ → ℚ → Except Unit ℚ) (b : FVal) :
    npLift2 f FVal.nan b = .ok FVal.nan := by
  cases b <;> rfl

theorem npLift2_nan_right (f : ℚ → ℚ → Except Unit ℚ) (a : FVal) :
    npLift2 f a FVal.nan = .ok FVal.nan := by
  cases a <;> rfl

theorem npLift1_nan (f : ℚ → Except Unit ℚ) :
    npLift1 f FVal.nan = .ok FVal.nan := rfl

theorem add_nan (ops : NpOps) (a b : FVal) (h : a = FVal.nan ∨ b = FVal.nan) :
    add ops a b = FVal.nan := by
  rcases h with h | h <;> subst h
  · rw [add, npLift2_nan_left]
  · rw [add, npLift2_nan_right]

theorem subtract_nan (ops : NpOps) (a b : FVal)
    (h : a = FVal.nan ∨ b = FVal.nan) : subtract ops a b = FVal.nan := by
  rcases h with h | h <;> subst h
  · rw [subtract, npLift2_nan_left]
  · rw [subtract, npLift2_nan_right]

theorem multiply_nan (ops : NpOps) (a b : FVal)
    (h : a = FVal.nan ∨ b = FVal.nan) : multiply ops a b = FVal.nan := by
  rcases h with h | h <;> subst h
  · rw [multiply, npLift2_nan_left]
  · rw [multiply, npLift2_nan_right]

theorem pyEqZero_nan : pyEqZero FVal.nan = false := rfl

theorem divide_nan (ops : NpOps) (a b : FVal)
    (h : a = FVal.nan ∨ b = FVal.nan) : divide ops a b = FVal.nan := by
  rcases h with h | h <;> subst h
  · rw [divide]
    rcases hb : pyEqZero b with _ | _
    · simp only [Bool.false_eq_true, if_false, npLift2_nan_left]
    · simp only [if_true]
  · rw [divide, pyEqZero_nan]
    simp only [Bool.false_eq_true, if_false, npLift2_nan_right]

theorem log_nan (ops : NpOps) : log ops FVal.nan = FVal.nan := by
  rw [log, pyEqZero_nan]
  simp only [Bool.false_eq_true, if_false, npLift1_nan]

theorem take_sin_nan (ops : NpOps) : take_sin ops FVal.nan = FVal.nan := rfl

theorem take_cos_nan (ops : NpOps) : take_cos ops FVal.nan = FVal.nan := rfl

theorem exp_nan (ops : NpOps) : exp ops FVal.nan = FVal.nan := by
  rw [exp]
  simp only [pyGe88, Bool.false_eq_true, if_false, npLift1_nan]

/-- C4: every primitive evaluator is total — it returns a value of the FVal
domain, never an exception: divide yields the NaN sentinel when b = 0, log
yields it when a = 0, exp yields it when a >= 88, and whenever the
underlying numpy ufunc raises on finite inputs, the try/except arm of add,
subtract, multiply, divide, take_sin, take_cos, exp and log converts the
exception into the NaN sentinel instead of re-raising it. -/
theorem primitive_domain_errors_yield_nan (ops : NpOps) :
    (∀ a : FVal, divide ops a (FVal.num 0) = FVal.nan) ∧
    log ops (FVal.num 0) = FVal.nan ∧
    (∀ x : ℚ, 88 ≤ x → exp ops (FVal.num x) = FVal.nan) ∧
    (∀ a b : ℚ, ops.addFin a b = .error () →
      add ops (FVal.num a) (FVal.num b) = FVal.nan) ∧
    (∀ a b : ℚ, ops.subFin a b = .error () →
      subtract ops (FVal.num a) (FVal.num b) = FVal.nan) ∧
    (∀ a b : ℚ, ops.mulFin a b = .error () →
      multiply ops (FVal.num a) (FVal.num b) = FVal.nan) ∧
    (∀ a b : ℚ, b ≠ 0 → ops.divFin a b = .error () →
      divide ops (FVal.num a) (FVal.num b) = FVal.nan) ∧
    (∀ a : ℚ, ops.sinFin a = .error () →
      take_sin ops (FVal.num a) = FVal.nan) ∧
    (∀ a : ℚ, ops.cosFin a = .error () →
      take_cos ops (FVal.num a) = FVal.nan) ∧
    (∀ x : ℚ, x < 88 → ops.expFin x = .error () →
      exp ops (FVal.num x) = FVal.nan) ∧
    (∀ a : ℚ, a ≠ 0 → ops.logFin a = .error () →
      log ops (FVal.num a) = FVal.nan) := by
  refine ⟨fun a => ?_, ?_, fun x hx => ?_, fun a b h => ?_, fun a b h => ?_,
    fun a b h => ?_, fun a b hb h => ?_, fun a h => ?_, fun a h => ?_,
    fun x hx h => ?_, fun a ha h => ?_⟩
  · simp [divide, pyEqZero]
  · simp [log, pyEqZero]
  · simp [exp, pyGe88, hx]
  · simp [add, npLift2, h, Except.map]
  · simp [subtract, npLift2, h, Except.map]
  · simp [multiply, npLift2, h, Except.map]
  · simp [divide, pyEqZero, npLift2, hb, h, Except.map]
  · simp [take_sin, npLift1, h, Except.map]
  · simp [take_cos, npLift1, h, Except.map]
  · simp [exp, pyGe88, npLift1, not_le.mpr hx, h, Except.map]
  · simp [log, pyEqZero, npLift1, ha, h, Except.map]

/-- Closed witness for the C4 theorem, exercising the zero-divisor guard, the
overflow guard and the try/except arms at concrete inputs on the
all-raising instantiation of the ufuncs. -/
theorem primitive_domain_errors_yield_nan_witness :
    divide errOps (FVal.num 5) (FVal.num 0) = FVal.nan ∧
    log errOps (FVal.num 0) = FVal.nan ∧
    exp errOps (FVal.num 100) = FVal.nan ∧
    add errOps (FVal.num 1) (FVal.num 2) = FVal.nan ∧
    divide errOps (FVal.num 1) (FVal.num 2) = FVal.nan ∧
    exp errOps (FVal.num 3) = FVal.nan ∧
    log errOps (FVal.num 3) = FVal.nan :=
  ⟨(primitive_domain_errors_yield_nan errOps).1 (FVal.num 5),
   (primitive_domain_errors_yield_nan errOps).2.1,
   (primitive_domain_errors_yield_nan errOps).2.2.1 100 (by norm_num),
   (primitive_domain_errors_yield_nan errOps).2.2.2.1 1 2 rfl,
   (primitive_domain_errors_yield_nan errOps).2.2.2.2.2.2.1 1 2
     (by norm_num) rfl,
   (primitive_domain_errors_yield_nan errOps).2.2.2.2.2.2.2.2.2.1 3
     (by norm_num) rfl,
   (primitive_domain_errors_yield_nan errOps).2.2.2.2.2.2.2.2.2.2 3
     (by norm_num) rfl⟩

/-- C5: NaN propagation law of the FUNCTION_SET table: for every entry of
the function set and every argument list of the entry's arity in which at
least one argument is the NaN sentinel, the evaluation rule returns the NaN
sentinel. -/
theorem function_set_nan_propagation (ops : NpOps) (entry : FuncEntry)
    (hmem : entry ∈ FUNCTION_SET ops) (args : List FVal)
    (hlen : args.length = entry.arity) (hnan : FVal.nan ∈ args) :
    entry.func args = some FVal.nan := by
  simp only [FUNCTION_SET, List.mem_cons, List.not_mem_nil, or_false] at hmem
  rcases hmem with h | h | h | h | h | h | h | h <;> subst h
  · rcases List.length_eq_two.mp hlen with ⟨a, b, rfl⟩
    simp only [List.mem_cons, List.not_mem_nil, or_false] at hnan
    exact congrArg some (add_nan ops a b (hnan.imp Eq.symm Eq.symm))
  · rcases List.length_eq_two.mp hlen with ⟨a, b, rfl⟩
    simp only [List.mem_cons, List.not_mem_nil, or_false] at hnan
    exact congrArg some (subtract_nan ops a b (hnan.imp Eq.symm Eq.symm))
  · rcases List.length_eq_two.mp hlen with ⟨a, b, rfl⟩
    simp only [List.mem_cons, List.not_mem_nil, or_false] at hnan
    exact congrArg some (multiply_nan ops a b (hnan.imp Eq.symm Eq.symm))
  · rcases List.length_eq_two.mp hlen with ⟨a, b, rfl⟩
    simp only [List.mem_cons, List.not_mem_nil, or_false] at hnan
    exact congrArg some (divide_nan ops a b (hnan.imp Eq.symm Eq.symm))
  · rcases List.length_eq_one.mp hlen with ⟨a, rfl⟩
    simp only [List.mem_cons, List.not_mem_nil, or_false] at hnan
    rw [← hnan]
    exact congrArg some (take_sin_nan ops)
  · rcases List.length_eq_one.mp hlen with ⟨a, rfl⟩
    simp only [List.mem_cons, List.not_mem_nil, or_false] at hnan
    rw [← hnan]
    exact congrArg some (take_cos_nan ops)
  · rcases List.length_eq_one.mp hlen with ⟨a, rfl⟩
    simp only [List.mem_cons, List.not_mem_nil, or_false] at hnan
    rw [← hnan]
    exact congrArg some (exp_nan ops)
  · rcases List.length_eq_one.mp hlen with ⟨a, rfl⟩
    simp only [List.mem_cons, List.not_mem_nil, or_false] at hnan
    rw [← hnan]
    exact congrArg some (log_nan ops)

/-- Closed witness for the C5 theorem: the first entry of the function set
applied to a list holding the NaN sentinel yields the NaN sentinel. -/
theorem function_set_nan_propagation_witness :
    (FUNCTION_SET qOps).headI.func [FVal.nan, FVal.num 3] = some FVal.nan :=
  function_set_nan_propagation qOps (FUNCTION_SET qOps).headI
    (by simp [FUNCTION_SET]) [FVal.nan, FVal.num 3]
    (by simp [FUNCTION_SET]) (by simp)

end FunctionSet

namespace MfeaiiMgp

/-- A single individual as the driver manipulates it: gene vector and skill
factor. Fitness and the decoded tree live behind the abstract population
operations. -/
structure Chrom where
  gene : List ℚ
  sf : ℕ
deriving DecidableEq, Repr

/-- Default chromosome used for out-of-range list reads; the theorems only
read in-range positions. -/
def dChrom : Chrom := ⟨[], 0⟩

/-- Python exceptions the driver can raise. -/
inductive PyErr where
  | valueError
  | indexError
deriving DecidableEq, Repr

/-- The rmp_matrix as a numpy K-by-K array: reading an entry outside the
square raises an IndexError. -/
structure RmpMatrix where
  dim : ℕ
  entry : ℕ → ℕ → ℚ

/-- Bounds-checked numpy indexing rmp_matrix[i, j]. -/
def RmpMatrix.get (mat : RmpMatrix) (i j : ℕ) : Except PyErr ℚ :=
  if i < mat.dim ∧ j < mat.dim then .ok (mat.entry i j) else .error .indexError

/-- Configuration surface unpacked by mfeaii_mgp (lines 11-24 of the
source). -/
structure Config where
  pop_size : ℕ
  num_iter : ℕ
  num_par : ℕ
  mutation_rate : ℚ
  sbxdi : ℚ
  pmdi : ℚ
  pswap : ℚ
  max_arity : ℕ
  h_main : ℕ
  h_adf : ℕ
deriving DecidableEq, Repr

/-- A task environment as seen by the setup code: its discrete action
cardinality and the dimension of the observation vector reset() returns. -/
structure GymEnv where
  action_n : ℕ
  obs_dim : ℕ
deriving DecidableEq, Repr

/-- Quantities the driver derives from envs and config before initializing
the population (lines 11-31 of the source). -/
structure SetupInfo where
  K : ℕ
  N : ℕ
  no_main : ℕ
  no_adf : ℕ
  no_terminal : ℕ
deriving DecidableEq, Repr

/-- Embedding of the setup portion of mfeaii_mgp: K = number of envs,
N = pop_size * K, no_main = envs[0].action_space.n (IndexError on an empty
env list), no_adf = 2 * no_main, and no_terminal = np.max of the observation
dimensions of all K envs — the maximum, not a consistency check. -/
def setup (envs : List GymEnv) (cfg : Config) : Except PyErr SetupInfo :=
  match envs with
  | [] => .error .indexError
  | e0 :: rest =>
      let K := (e0 :: rest).length
      let N := cfg.pop_size * K
      let no_main := e0.action_n
      let no_adf := no_main * 2
      let no_terminal := ((e0 :: rest).map GymEnv.obs_dim).foldl max 0
      .ok ⟨K, N, no_main, no_adf, no_terminal⟩

/-- Modelled from the spec: the Slgep_pop population operations of
slgep_lib/chromosome_continuous.py, which is not among the analysed sources
(only this driver calls it). Each operation is abstracted as an arbitrary
deterministic function of its inputs, following the spec contracts of
section 4.3 (evaluate, sort, permute, get_subpops, learn_rmp, crossover_mul,
crossover_mul_second, mutate, find_relative, get_optimization_results);
stochastic choices inside them are resolved by the instantiation, and every
driver theorem holds for all instantiations. initPop receives exactly the
constructor arguments the driver passes to Slgep_pop, and D is the genome
dimension population.pop[0].D. mutate's third argument models the optional
pmdi parameter the driver sometimes omits. -/
structure PopOps where
  D : ℕ
  initPop : ℕ → ℕ → ℕ → ℕ → ℕ → ℕ → ℕ → ℕ → List Chrom
  evaluate : List Chrom → List Chrom
  sort : List Chrom → List Chrom
  permute : ℕ → List Chrom → List Chrom
  get_subpops : List Chrom → ℕ → List Chrom
  learn_rmp : (ℕ → List Chrom) → ℕ → ℕ → ℚ
  crossover_mul : List Chrom → (ℕ → ℕ → ℚ) → List Chrom
  crossover_mul_second : List Chrom → (ℕ → ℕ → ℚ) → RmpMatrix → List Chrom
  mutate : Chrom → ℚ → Option ℚ → Chrom
  find_relative : List Chrom → ℕ → Chrom
  get_optimization_results : ℕ → List Chrom → List ℚ

/-- Abstract payloads of the library numerics the driver uses directly:
scipy.stats.norm.pdf and the square root inside np.std. -/
structure MathOps where
  normPdf : ℚ → ℚ → ℚ → ℚ
  sqrtQ : ℚ → ℚ

/-- Random streams backing the np.random draws the driver itself performs,
indexed by a tick counter the driver threads: normal is the stream of
np.random.normal(0.7, 0.1) samples, uniform the stream of np.random.rand()
samples, and choice the stream of indices backing np.random.choice. -/
structure Rng where
  normal : ℕ → ℚ
  uniform : ℕ → ℚ
  choice : ℕ → ℕ

/-- Mean of a rational list (np.mean); the empty case (division by zero in
ℚ, hence 0) is never reached by the theorems. -/
def meanQ (xs : List ℚ) : ℚ := xs.sum / xs.length

/-- Population variance of a rational list (square of np.std, ddof = 0). -/
def varQ (xs : List ℚ) : ℚ := meanQ (xs.map (fun x => (x - meanQ xs) ^ 2))

/-- Same-position gene values of a subpopulation (column j of the
concatenated gene matrix). -/
def posGenes (sub : List Chrom) (j : ℕ) : List ℚ :=
  sub.map (fun p => p.gene.getD j 0)

/-- Per-position standard deviation of a subpopulation (np.std along axis 0)
with the square root abstracted in MathOps. -/
def stdAt (m : MathOps) (sub : List Chrom) (j : ℕ) : ℚ :=
  m.sqrtQ (varQ (posGenes sub j))

/-- Embedding of the likelihood-weighted beta computation (the
normal_beta = False branch, lines 64-77): bl starts as ones and coordinate
(i, j) is multiplied by 1 when the parent's subpopulation has zero standard
deviation at position j, and otherwise by the normal density of the parent's
gene value under the subpopulation's empirical mean and standard
deviation. -/
def likelihoodBeta (m : MathOps) (subpops : ℕ → List Chrom)
    (parents : List Chrom) : ℕ → ℕ → ℚ := fun i j =>
  match parents.get? i with
  | none => 1
  | some p =>
      let sub := subpops p.sf
      if stdAt m sub j = 0 then 1
      else 1 * m.normPdf (p.gene.getD j 0) (meanQ (posGenes sub j))
        (stdAt m sub j)

/-- Parents extracted positionally for the group starting at index k
(line 58). -/
def groupParents (pop : List Chrom) (k no_p : ℕ) : List Chrom :=
  (List.range no_p).map (fun i => pop.getD (k + i) dChrom)

/-- Embedding of lines 82-83: the maximum rmp between parent 0 and each
other parent. The list comprehension indexes rmp_matrix (IndexError on an
out-of-range skill factor) and np.max raises a ValueError on the empty
array that arises when no_p = 1. -/
def maxRmp (rmp : RmpMatrix) (parents : List Chrom) (no_p : ℕ) :
    Except PyErr ℚ :=
  match (List.range' 1 (no_p - 1)).mapM
      (fun i => rmp.get (parents.getD 0 dChrom).sf
        (parents.getD i dChrom).sf) with
  | .error e => .error e
  | .ok [] => .error .valueError
  | .ok (v :: vs) => .ok (vs.foldl max v)

/-- Embedding of the same-skill-factor scan of lines 87-90. -/
def sameSf (parents : List Chrom) : Bool :=
  (List.range (parents.length - 1)).all
    (fun i => (parents.getD i dChrom).sf = (parents.getD (i + 1) dChrom).sf)

/-- Tick counter after the beta computation: the normal-beta branch consumes
one normal draw per gene of each parent, the likelihood branch consumes
none. -/
def betaTick (nb : Bool) (c no_p D : ℕ) : ℕ :=
  if nb then c + no_p * D else c

/-- Python list index assignment applied write by write (the loop of lines
124-126); List.set leaves the list unchanged out of range, which the
theorems show is never exercised. -/
def applyWrites (pop : List Chrom) (ws : List (ℕ × Chrom)) : List Chrom :=
  ws.foldl (fun acc pr => acc.set pr.1 pr.2) pop

/-- Embedding of one iteration of the parent-pairing loop (the body of
`for k in range(0, N, no_par)`, lines 54-126). The result carries the
population after the write-back, the advanced random tick, and the list of
(index, chromosome) assignments the write-back loop performed. In the
same-skill-factor branch the children are produced, mutated and tagged, but
the `else` attached to the mutation `for` executes `continue`, so the
write-back of lines 124-126 is skipped and the population is returned
unchanged with an empty write list. -/
def pairGroup (ops : PopOps) (m : MathOps) (rng : Rng) (nb : Bool)
    (cfg : Config) (N : ℕ) (subpops : ℕ → List Chrom) (rmp : RmpMatrix)
    (k : ℕ) (st : List Chrom × ℕ) :
    Except PyErr (List Chrom × ℕ × List (ℕ × Chrom)) :=
  let pop := st.1
  let c := st.2
  let no_p := min (N - k) cfg.num_par
  let parents := groupParents pop k no_p
  let bl : ℕ → ℕ → ℚ :=
    if nb then fun i j => rng.normal (c + i * ops.D + j)
    else likelihoodBeta m subpops parents
  let c1 := betaTick nb c no_p ops.D
  match maxRmp rmp parents no_p with
  | .error e => .error e
  | .ok mr =>
    if sameSf parents then
      let cl := ops.crossover_mul parents bl
      let _dropped := (List.range no_p).map (fun i =>
        let ch := ops.mutate (cl.getD i dChrom) cfg.mutation_rate
          (some cfg.pmdi)
        { ch with sf := (parents.getD 0 dChrom).sf })
      .ok (pop, c1, [])
    else
      let r := rng.uniform c1
      let c2 := c1 + 1
      let children :=
        if r < mr then
          let cl := ops.crossover_mul_second parents bl rmp
          let sf_assign := parents.map Chrom.sf
          (List.range no_p).map (fun i =>
            let ch := ops.mutate (cl.getD i dChrom) cfg.mutation_rate none
            { ch with sf := sf_assign.getD (rng.choice (c2 + i) % no_p) 0 })
        else
          let parents2 := parents.getD 0 dChrom ::
            (List.range' 1 (no_p - 1)).map
              (fun _ => ops.find_relative pop (parents.getD 0 dChrom).sf)
          let cl := ops.crossover_mul parents2 bl
          (List.range no_p).map (fun i =>
            let ch := ops.mutate (cl.getD i dChrom) cfg.mutation_rate none
            { ch with sf := (parents2.getD 0 dChrom).sf })
      let writes := (List.range no_p).map
        (fun i => (N + k + i, children.getD i dChrom))
      .ok (applyWrites pop writes, c2 + no_p, writes)

/-- Python range(0, N, step) for the group starts of the pairing loop. -/
def groupStarts (N step : ℕ) : List ℕ :=
  (List.range N).filter (fun k => k % step = 0)

/-- Rounding to one decimal as in round(x, 1); Python rounds exact ties to
even, a difference no theorem relies on. -/
def pyRound1 (x : ℚ) : ℚ := (round (x * 10) : ℤ) / 10

/-- Payload of one per-generation report (the callback argument): the
generation index, the rounded rmp_matrix[0, 1] sample of the message, and
the optimization results. -/
structure GenReport where
  gen : ℕ
  rmp01 : ℚ
  best : List ℚ
deriving DecidableEq, Repr

/-- Embedding of one generation of the evolve loop (lines 44-142): permute,
learn the rmp matrix (a K-by-K array rebuilt from the subpopulations),
run the pairing loop over all group starts, re-evaluate, sort, and build
the report message — whose rmp field reads rmp_matrix[0, 1]. -/
def generationStep (ops : PopOps) (m : MathOps) (rng : Rng) (nb : Bool)
    (cfg : Config) (K N t : ℕ) (st : List Chrom × ℕ) :
    Except PyErr (List Chrom × ℕ × GenReport) :=
  let pop1 := ops.permute st.2 st.1
  let c1 := st.2 + 1
  let subpops := ops.get_subpops pop1
  let rmp : RmpMatrix := ⟨K, ops.learn_rmp subpops⟩
  match (groupStarts N cfg.num_par).foldlM
      (fun (s : List Chrom × ℕ) k =>
        match pairGroup ops m rng nb cfg N subpops rmp k s with
        | .error e => Except.error e
        | .ok (p, c, _) => Except.ok (p, c)) (pop1, c1) with
  | .error e => .error e
  | .ok (pop2, c2) =>
    let pop3 := ops.sort (ops.evaluate pop2)
    match rmp.get 0 1 with
    | .error e => .error e
    | .ok r =>
        .ok (pop3, c2, ⟨t, pyRound1 r, ops.get_optimization_results t pop3⟩)

/-- The generational loop of lines 44-142 (the for t in trange(T) loop):
each iteration runs one generation step and appends its report to the
accumulated callback payloads. -/
def runGenerations (ops : PopOps) (m : MathOps) (rng : Rng) (nb : Bool)
    (cfg : Config) (K N : ℕ) (ts : List ℕ)
    (st : List Chrom × ℕ × List GenReport) :
    Except PyErr (List Chrom × ℕ × List GenReport) :=
  ts.foldlM
    (fun (s : List Chrom × ℕ × List GenReport) t =>
      match generationStep ops m rng nb cfg K N t (s.1, s.2.1) with
      | .error e => Except.error e
      | .ok (p, c, r) => Except.ok (p, c, s.2.2 ++ [r])) st

/-- Embedding of the whole mfeaii_mgp driver: setup, population
initialization with the constructor arguments of line 30, initial evaluate
and sort, then num_iter generations; the returned list collects the
per-generation reports handed to the callback. -/
def mfeaii_mgp (ops : PopOps) (m : MathOps) (rng : Rng) (envs : List GymEnv)
    (cfg : Config) (nb : Bool) : Except PyErr (List GenReport) :=
  match setup envs cfg with
  | .error e => .error e
  | .ok info =>
    let pop0 := ops.initPop info.no_adf info.no_terminal info.no_main
      cfg.h_main cfg.max_arity cfg.h_adf (2 * info.N) info.K
    let pop0 := ops.sort (ops.evaluate pop0)
    match runGenerations ops m rng nb cfg info.K info.N
        (List.range cfg.num_iter) (pop0, 0, []) with
    | .error e => .error e
    | .ok (_, _, reports) => .ok reports

/-- Concrete instantiation of the abstract population operations, used only
to exercise the driver theorems on closed inputs: crossover returns its
parents, mutation is the identity, permutation and sorting leave the
population unchanged, and the learned rmp entries are all one. -/
def testOps : PopOps :=
  { D := 1
    initPop := fun _ _ _ _ _ _ no_pop _ => List.replicate no_pop dChrom
    evaluate := id
    sort := id
    permute := fun _ p => p
    get_subpops := fun p sf => p.filter (fun ch => ch.sf = sf)
    learn_rmp := fun _ _ _ => 1
    crossover_mul := fun ps _ => ps
    crossover_mul_second := fun ps _ _ => ps
    mutate := fun ch _ _ => ch
    find_relative := fun _ sf => ⟨[0], sf⟩
    get_optimization_results := fun _ _ => [] }

/-- Concrete stand-ins for the abstract numeric payloads, used only in
closed witnesses. -/
def testMath : MathOps := ⟨fun x loc s => (x - loc) / s, fun x => x⟩

/-- Concrete random streams used only in closed witnesses: uniform draws are
0, choice indices enumerate the tick. -/
def testRng : Rng := ⟨fun _ => 7 / 10, fun _ => 0, fun t => t⟩

/-- All-ones 2-by-2 rmp matrix used in closed witnesses. -/
def testRmp2 : RmpMatrix := ⟨2, fun _ _ => 1⟩

/-- Four-slot test population (N = 2) whose two current-generation parents
carry differing skill factors 0 and 1. -/
def testPop2 : List Chrom := [⟨[0], 0⟩, ⟨[0], 1⟩, dChrom, dChrom]

/-- Eight-slot test population (N = 4) in which every chromosome carries
skill factor 0. -/
def testPop4 : List Chrom := List.replicate 8 dChrom

/-- Test configuration with two parents per crossover group. -/
def cfgT : Config := ⟨1, 1, 2, 1 / 2, 1, 1, 1, 2, 2, 2⟩

/-- Zero-variance test subpopulation map: both members carry gene value 5
at position 0. -/
def subA : ℕ → List Chrom := fun _ => [⟨[5], 0⟩, ⟨[5], 0⟩]

/-- Nonzero-variance test subpopulation map: gene values 0 and 2 at
position 0. -/
def subB : ℕ → List Chrom := fun _ => [⟨[0], 0⟩, ⟨[2], 0⟩]

theorem groupParents_length (pop : List Chrom) (k no_p : ℕ) :
    (groupParents pop k no_p).length = no_p := by
  simp [groupParents]

theorem maxRmp_zero (rmp : RmpMatrix) (parents : List Chrom) :
    maxRmp rmp parents 0 = .error .valueError := rfl

theorem maxRmp_one (rmp : RmpMatrix) (parents : List Chrom) :
    maxRmp rmp parents 1 = .error .valueError := rfl

theorem maxRmp_ok_two_le (rmp : RmpMatrix) (parents : List Chrom)
    (no_p : ℕ) (mr : ℚ) (h : maxRmp rmp parents no_p = .ok mr) :
    2 ≤ no_p := by
  match no_p with
  | 0 => rw [maxRmp_zero] at h; exact Except.noConfusion h
  | 1 => rw [maxRmp_one] at h; exact Except.noConfusion h
  | n + 2 => omega

theorem getD_range_map {α : Type} (f : ℕ → α) (n i : ℕ) (d : α)
    (h : i < n) : ((List.range n).map f).getD i d = f i := by
  rw [List.getD_eq_getElem?_getD, List.getElem?_map, List.getElem?_range h]
  rfl

theorem getD_mod_mem {α : Type} (l : List α) (d : α) (t : ℕ)
    (h : l ≠ []) : l.getD (t % l.length) d ∈ l := by
  have hlen : 0 < l.length := List.length_pos.mpr h
  have hlt : t % l.length < l.length := Nat.mod_lt _ hlen
  rw [List.getD_eq_getElem?_getD, List.getElem?_eq_getElem hlt,
    Option.getD_some]
  exact l.getElem_mem hlt

theorem applyWrites_getD_not_mem (ws : List (ℕ × Chrom))
    (pop : List Chrom) (idx : ℕ) (h : idx ∉ ws.map Prod.fst) :
    (applyWrites pop ws).getD idx dChrom = pop.getD idx dChrom := by
  induction ws generalizing pop with
  | nil => rfl
  | cons w ws ih =>
      simp only [List.map_cons, List.mem_cons, not_or] at h
      have step : applyWrites pop (w :: ws) =
          applyWrites (pop.set w.1 w.2) ws := rfl
      rw [step, ih _ (fun hm => h.2 hm)]
      rw [List.getD_eq_getElem?_getD, List.getD_eq_getElem?_getD,
        List.getElem?_set_ne (fun he => h.1 he.symm)]

/-- C1 (evaluation at a failing input): for a parent group whose parents all
share one skill factor (here the group at k = 0 of an 8-slot population with
N = 4, every skill factor 0), the pairing-loop body returns the population
unchanged and an empty assignment list: the for/else `continue` skips the
write-back, so no child reaches the offspring slots N+k..N+k+no_p-1,
contradicting the claim that every branch writes the no_p children there. -/
theorem same_sf_branch_discards_children :
    pairGroup testOps testMath testRng true cfgT 4
      (testOps.get_subpops testPop4) testRmp2 0 (testPop4, 0) =
      .ok (testPop4, 2, []) := rfl

/-- C2 (refutation at the no_p = 1 case): whenever a partial parent group
has size no_p = min(N-k, num_par) = 1, the maximum-pairwise-RMP computation
is np.max over an empty array and the pairing-loop body raises a ValueError
instead of completing the crossover, mutation and write-back round. -/
theorem singleton_group_max_rmp_value_error (ops : PopOps) (m : MathOps)
    (rng : Rng) (nb : Bool) (cfg : Config) (N : ℕ)
    (subpops : ℕ → List Chrom) (rmp : RmpMatrix) (k : ℕ)
    (pop : List Chrom) (c : ℕ) (h : min (N - k) cfg.num_par = 1) :
    pairGroup ops m rng nb cfg N subpops rmp k (pop, c) =
      .error .valueError := by
  simp only [pairGroup, h, maxRmp_one]

/-- Closed witness for the C2 theorem: the tail group k = 4 of a population
with N = 5 and num_par = 2 has size 1 and raises the ValueError. -/
theorem singleton_group_max_rmp_value_error_witness :
    pairGroup testOps testMath testRng true cfgT 5
      (testOps.get_subpops testPop4) testRmp2 4 (testPop4, 0) =
      .error .valueError :=
  singleton_group_max_rmp_value_error testOps testMath testRng true cfgT 5
    (testOps.get_subpops testPop4) testRmp2 4 testPop4 0 (by decide)

/-- C3 (counterexample): two task environments with mismatched observation
dimensionalities 3 and 5 do not make the setup fail fatally; it succeeds,
silently adopting the maximum 5 as the common terminal count. -/
theorem mismatched_dims_setup_succeeds :
    setup [⟨2, 3⟩, ⟨2, 5⟩] cfgT = .ok ⟨2, 2, 2, 4, 5⟩ ∧
    GymEnv.obs_dim ⟨2, 3⟩ ≠ GymEnv.obs_dim ⟨2, 5⟩ := by
  exact ⟨rfl, by decide⟩

theorem foldl_max_le_init (xs : List ℕ) (a : ℕ) : a ≤ xs.foldl max a := by
  induction xs generalizing a with
  | nil => exact Nat.le_refl a
  | cons y ys ih => exact Nat.le_trans (Nat.le_max_left a y) (ih (max a y))

theorem le_foldl_max (xs : List ℕ) (a x : ℕ) (hx : x ∈ xs) :
    x ≤ xs.foldl max a := by
  induction xs generalizing a with
  | nil => cases hx
  | cons y ys ih =>
      rcases List.mem_cons.mp hx with h | h
      · subst h
        exact Nat.le_trans (Nat.le_max_right a x) (foldl_max_le_init ys _)
      · exact ih _ h

theorem foldl_max_mem (xs : List ℕ) (a : ℕ) :
    xs.foldl max a = a ∨ xs.foldl max a ∈ xs := by
  induction xs generalizing a with
  | nil => exact Or.inl rfl
  | cons y ys ih =>
      rcases ih (max a y) with h | h
      · rcases max_choice a y with hm | hm
        · exact Or.inl (by rw [List.foldl_cons, h, hm])
        · exact Or.inr (by rw [List.foldl_cons, h, hm]; exact List.mem_cons_self y ys)
      · exact Or.inr (List.mem_cons_of_mem y h)

/-- C3 (amended): for every nonempty environment list, setup succeeds — no
fatal dimension-consistency check exists — and the common terminal count is
the maximum observation dimensionality over the tasks: an upper bound on
every task's dimension, itself attained by one of them. -/
theorem setup_uses_max_obs_dim (envs : List GymEnv) (cfg : Config)
    (e0 : GymEnv) (rest : List GymEnv) (henv : envs = e0 :: rest) :
    setup envs cfg = .ok ⟨envs.length, cfg.pop_size * envs.length,
      e0.action_n, e0.action_n * 2, (envs.map GymEnv.obs_dim).foldl max 0⟩ ∧
    (∀ e ∈ envs, e.obs_dim ≤ (envs.map GymEnv.obs_dim).foldl max 0) ∧
    (envs.map GymEnv.obs_dim).foldl max 0 ∈ envs.map GymEnv.obs_dim := by
  subst henv
  refine ⟨rfl, fun e he => ?_, ?_⟩
  · exact le_foldl_max _ 0 e.obs_dim (List.mem_map_of_mem GymEnv.obs_dim he)
  · rcases foldl_max_mem ((e0 :: rest).map GymEnv.obs_dim) 0 with h | h
    · have he0 : e0.obs_dim ≤ ((e0 :: rest).map GymEnv.obs_dim).foldl max 0 :=
        le_foldl_max _ 0 e0.obs_dim (List.mem_map_of_mem GymEnv.obs_dim
          (List.mem_cons_self e0 rest))
      have : e0.obs_dim = 0 := by omega
      rw [h]
      rw [← this]
      exact List.mem_map_of_mem GymEnv.obs_dim (List.mem_cons_self e0 rest)
    · exact h

/-- Closed witness for the amended C3 theorem at the mismatched-dimension
input. -/
theorem setup_uses_max_obs_dim_witness :
    setup [⟨2, 3⟩, ⟨2, 5⟩] cfgT = .ok ⟨2, 2, 2, 4, 5⟩ ∧
    GymEnv.obs_dim ⟨2, 3⟩ ≤ 5 := by
  have h := setup_uses_max_obs_dim [⟨2, 3⟩, ⟨2, 5⟩] cfgT ⟨2, 3⟩ [⟨2, 5⟩] rfl
  exact ⟨h.1, h.2.1 ⟨2, 3⟩ (by simp)⟩

/-- C7: in likelihood-weighted beta mode (normal_beta = False), a gene
position whose subpopulation standard deviation is exactly zero receives
blend coefficient 1 — the density, and with it the division by the zero
scale, is never computed — while a position with nonzero standard deviation
receives the normal density of the parent's gene value under the
subpopulation's empirical per-position mean and standard deviation. -/
theorem likelihood_beta_zero_std_guard (m : MathOps)
    (subpops : ℕ → List Chrom) (parents : List Chrom) (i j : ℕ) (p : Chrom)
    (hp : parents[i]? = some p) :
    (stdAt m (subpops p.sf) j = 0 →
      likelihoodBeta m subpops parents i j = 1) ∧
    (stdAt m (subpops p.sf) j ≠ 0 →
      likelihoodBeta m subpops parents i j =
        m.normPdf (p.gene.getD j 0) (meanQ (posGenes (subpops p.sf) j))
          (stdAt m (subpops p.sf) j)) := by
  constructor <;> intro h <;> simp [likelihoodBeta, hp, h]

/-- Closed witness for the C7 theorem: a zero-variance subpopulation yields
beta 1; a subpopulation with gene values 0 and 2 yields the density. -/
theorem likelihood_beta_zero_std_guard_witness :
    likelihoodBeta testMath subA [⟨[5], 0⟩] 0 0 = 1 ∧
    likelihoodBeta testMath subB [⟨[5], 0⟩] 0 0 =
      testMath.normPdf 5 (meanQ (posGenes (subB 0) 0))
        (stdAt testMath (subB 0) 0) := by
  constructor
  · exact (likelihood_beta_zero_std_guard testMath subA [⟨[5], 0⟩] 0 0
      ⟨[5], 0⟩ rfl).1
      (by norm_num [stdAt, varQ, posGenes, meanQ, testMath, subA])
  · exact (likelihood_beta_zero_std_guard testMath subB [⟨[5], 0⟩] 0 0
      ⟨[5], 0⟩ rfl).2
      (by norm_num [stdAt, varQ, posGenes, meanQ, testMath, subB])

/-- C8: the pairing-loop body for the parent group at index k assigns only
offspring indices N+k+i with 0 <= i < no_p — all inside the group's
reserved slice [N+k, N+k+no_p), hence inside [N, 2N) — and every slot
outside the assigned indices, in particular every current-generation slot
0..N-1 and every other group's offspring slice, is left unchanged. -/
theorem pair_group_writes_offspring_slice_only (ops : PopOps) (m : MathOps)
    (rng : Rng) (nb : Bool) (cfg : Config) (N : ℕ)
    (subpops : ℕ → List Chrom) (rmp : RmpMatrix) (k : ℕ)
    (pop pop' : List Chrom) (c c' : ℕ) (writes : List (ℕ × Chrom))
    (hk : k < N)
    (hrun : pairGroup ops m rng nb cfg N subpops rmp k (pop, c) =
      .ok (pop', c', writes)) :
    (∀ pr ∈ writes, N + k ≤ pr.1 ∧
      pr.1 < N + k + min (N - k) cfg.num_par ∧ pr.1 < 2 * N) ∧
    (∀ idx, idx ∉ writes.map Prod.fst →
      pop'.getD idx dChrom = pop.getD idx dChrom) := by
  simp only [pairGroup] at hrun
  split at hrun
  · cases hrun
  · split at hrun
    · rw [Except.ok.injEq, Prod.mk.injEq, Prod.mk.injEq] at hrun
      obtain ⟨h1, _, h3⟩ := hrun
      subst h1
      subst h3
      exact ⟨fun pr hpr => absurd hpr (List.not_mem_nil pr),
        fun idx _ => rfl⟩
    · rw [Except.ok.injEq, Prod.mk.injEq, Prod.mk.injEq] at hrun
      obtain ⟨h1, _, h3⟩ := hrun
      subst h1
      subst h3
      constructor
      · intro pr hpr
        simp only [List.mem_map, List.mem_range] at hpr
        obtain ⟨i, hi, rfl⟩ := hpr
        have hmin : min (N - k) cfg.num_par ≤ N - k := Nat.min_le_left _ _
        refine ⟨Nat.le_add_right _ _, by omega, by omega⟩
      · intro idx hidx
        exact applyWrites_getD_not_mem _ pop idx hidx

/-- Closed witness for the C8 theorem: the rmp-branch run on the four-slot
test population writes index 2, which lies in the reserved offspring
slice. -/
theorem pair_group_writes_offspring_slice_only_witness :
    (2 : ℕ) + 0 ≤ 2 ∧ 2 < 2 + 0 + min (2 - 0) cfgT.num_par ∧
      2 < 2 * 2 := by
  have h := pair_group_writes_offspring_slice_only testOps testMath testRng
    true cfgT 2 (testOps.get_subpops testPop2) testRmp2 0 testPop2
    [⟨[0], 0⟩, ⟨[0], 1⟩, ⟨[0], 1⟩, ⟨[0], 0⟩] 0 5
    [(2, ⟨[0], 1⟩), (3, ⟨[0], 0⟩)] (by omega) rfl
  exact h.1 (2, ⟨[0], 1⟩) (by simp)

/-- C6: in the cross-task crossover branch — parents not all of one skill
factor and the uniform draw below the maximum pairwise rmp between parent 0
and the others — every child the write-back assigns carries a skill factor
selected by np.random.choice from the list of the parents' skill factors;
in particular it is always a member of that list. -/
theorem cross_task_child_sf_from_parents (ops : PopOps) (m : MathOps)
    (rng : Rng) (nb : Bool) (cfg : Config) (N : ℕ)
    (subpops : ℕ → List Chrom) (rmp : RmpMatrix) (k : ℕ)
    (pop pop' : List Chrom) (c c' : ℕ) (writes : List (ℕ × Chrom)) (mr : ℚ)
    (hsf : sameSf (groupParents pop k (min (N - k) cfg.num_par)) = false)
    (hmr : maxRmp rmp (groupParents pop k (min (N - k) cfg.num_par))
      (min (N - k) cfg.num_par) = .ok mr)
    (hlt : rng.uniform (betaTick nb c (min (N - k) cfg.num_par) ops.D) < mr)
    (hrun : pairGroup ops m rng nb cfg N subpops rmp k (pop, c) =
      .ok (pop', c', writes)) :
    ∀ pr ∈ writes, pr.2.sf ∈
      (groupParents pop k (min (N - k) cfg.num_par)).map Chrom.sf := by
  have hp2 : 2 ≤ min (N - k) cfg.num_par :=
    maxRmp_ok_two_le _ _ _ _ hmr
  simp only [pairGroup] at hrun
  split at hrun
  · cases hrun
  · rename_i mr' hmx
    rw [hmr] at hmx
    have hmr' : mr' = mr := (Except.ok.inj hmx).symm
    subst hmr'
    rw [hsf] at hrun
    simp only [Bool.false_eq_true, if_false] at hrun
    rw [if_pos hlt] at hrun
    rw [Except.ok.injEq, Prod.mk.injEq, Prod.mk.injEq] at hrun
    obtain ⟨_, _, h3⟩ := hrun
    subst h3
    intro pr hpr
    simp only [List.mem_map, List.mem_range] at hpr
    obtain ⟨i, hi, rfl⟩ := hpr
    have hlen : ((groupParents pop k (min (N - k) cfg.num_par)).map
        Chrom.sf).length = min (N - k) cfg.num_par := by
      rw [List.length_map, groupParents_length]
    have hne : (groupParents pop k (min (N - k) cfg.num_par)).map
        Chrom.sf ≠ [] := by
      intro hnil
      rw [hnil] at hlen
      simp at hlen
      omega
    have := getD_mod_mem ((groupParents pop k (min (N - k)
      cfg.num_par)).map Chrom.sf) 0 (rng.choice (betaTick nb c (min (N - k)
      cfg.num_par) ops.D + 1 + i)) hne
    rw [hlen] at this
    rw [getD_range_map _ _ _ _ hi]
    exact this

/-- Closed witness for the C6 theorem: the child written to slot 2 of the
four-slot test population carries skill factor 1, a member of the parents'
skill-factor list. -/
theorem cross_task_child_sf_from_parents_witness :
    ((2, (⟨[0], 1⟩ : Chrom)) : ℕ × Chrom).2.sf ∈
      (groupParents testPop2 0 (min (2 - 0) cfgT.num_par)).map Chrom.sf := by
  have h := cross_task_child_sf_from_parents testOps testMath testRng true
    cfgT 2 (testOps.get_subpops testPop2) testRmp2 0 testPop2
    [⟨[0], 0⟩, ⟨[0], 1⟩, ⟨[0], 1⟩, ⟨[0], 0⟩] 0 5
    [(2, ⟨[0], 1⟩), (3, ⟨[0], 0⟩)] 1 rfl rfl (by norm_num [testRng]) rfl
  exact h (2, ⟨[0], 1⟩) (by simp)

/-- C9 (amended): the recognized options sbxdi and pswap are unpacked into
locals at lines 17 and 19 and never used again, so two runs whose
configurations differ only in sbxdi and pswap perform the identical
computation for every instantiation of the population operations and random
streams; a per-option observable effect can exist at most for the remaining
recognized options. -/
theorem driver_ignores_sbxdi_pswap (ops : PopOps) (m : MathOps) (rng : Rng)
    (envs : List GymEnv) (cfg : Config) (nb : Bool) (v w : ℚ) :
    mfeaii_mgp ops m rng envs { cfg with sbxdi := v, pswap := w } nb =
      mfeaii_mgp ops m rng envs cfg nb := rfl

/-- C9 (counterexample): two concrete configurations that differ in the
recognized options sbxdi and pswap drive identical runs, against the claim
that runs differing in any recognized option are not guaranteed to perform
the identical computation. -/
theorem sbxdi_pswap_concrete_runs_identical :
    ({ cfgT with sbxdi := 9, pswap := 9 } : Config) ≠ cfgT ∧
    mfeaii_mgp testOps testMath testRng [⟨2, 4⟩]
        { cfgT with sbxdi := 9, pswap := 9 } true =
      mfeaii_mgp testOps testMath testRng [⟨2, 4⟩] cfgT true :=
  ⟨fun h => absurd (congrArg Config.sbxdi h) (by norm_num [cfgT]), rfl⟩

theorem generationStep_single_task_errors (ops : PopOps) (m : MathOps)
    (rng : Rng) (nb : Bool) (cfg : Config) (N t : ℕ)
    (st : List Chrom × ℕ) (out : List Chrom × ℕ × GenReport) :
    generationStep ops m rng nb cfg 1 N t st ≠ .ok out := by
  simp only [generationStep]
  split
  · simp
  · simp [RmpMatrix.get]

theorem runGenerations_single_task (ops : PopOps) (m : MathOps) (rng : Rng)
    (nb : Bool) (cfg : Config) (N t0 : ℕ) (ts : List ℕ)
    (st out : List Chrom × ℕ × List GenReport) :
    runGenerations ops m rng nb cfg 1 N (t0 :: ts) st ≠ .ok out := by
  rw [runGenerations, List.foldlM_cons]
  cases hg : generationStep ops m rng nb cfg 1 N t0 (st.1, st.2.1) with
  | error e =>
      simp only [hg]
      exact fun hc => Except.noConfusion hc
  | ok val =>
      exact absurd hg (generationStep_single_task_errors _ _ _ _ _ _ _ _ _)

/-- C10: with a single task environment (K = 1) the driver cannot complete
even one generation: the pairing loop either raises, or the per-generation
message indexes rmp_matrix[0, 1] on the 1-by-1 rmp matrix and raises an
IndexError; in every case the run errors before any report reaches the
callback, so at least two tasks are required to reach it. -/
theorem single_task_never_reaches_callback (ops : PopOps) (m : MathOps)
    (rng : Rng) (e : GymEnv) (cfg : Config) (nb : Bool)
    (h : 1 ≤ cfg.num_iter) :
    (mfeaii_mgp ops m rng [e] cfg nb).toOption = none := by
  obtain ⟨T', hT⟩ : ∃ T', cfg.num_iter = T' + 1 :=
    ⟨cfg.num_iter - 1, by omega⟩
  simp only [mfeaii_mgp, setup, hT, List.range_succ_eq_map,
    List.length_cons, List.length_nil]
  split
  · rfl
  · rename_i val heq
    exact absurd heq (runGenerations_single_task _ _ _ _ _ _ _ _ _ _)

/-- Closed witness for the C10 theorem: a concrete single-task run produces
no report list. -/
theorem single_task_never_reaches_callback_witness :
    (mfeaii_mgp testOps testMath testRng [⟨2, 4⟩]
      { cfgT with pop_size := 4 } true).toOption = none :=
  single_task_never_reaches_callback testOps testMath testRng ⟨2, 4⟩
    { cfgT with pop_size := 4 } true (by norm_num [cfgT])

end MfeaiiMgp
